import Mathlib

/-!
Verification development for the dev-converter format conversion engine
(`src/app/page.tsx`, `handleConvert` and its helper logic).

The JavaScript string operations used by the engine are embedded over
`List Char`, wrapped into `String` at the API boundary.  Literal braces,
apostrophes and a few control characters inside emitted templates are written
with `\xNN` escapes or `Char.ofNat`.
-/

namespace DevConverter

/-- The left brace character. -/
def lbrace : Char := Char.ofNat 123

/-- The right brace character. -/
def rbrace : Char := Char.ofNat 125

/-- The single-quote (apostrophe) character. -/
def squote : Char := Char.ofNat 39

/-- The backslash character. -/
def bslash : Char := Char.ofNat 92

/-- The set of characters removed by JavaScript `String.prototype.trim`:
ASCII whitespace, NBSP, the Unicode space separators, line/paragraph
separators and the BOM. -/
def isJsWs (c : Char) : Bool :=
  c.toNat = 9 || c.toNat = 10 || c.toNat = 11 || c.toNat = 12 || c.toNat = 13 ||
  c.toNat = 32 || c.toNat = 160 || c.toNat = 5760 ||
  (8192 ≤ c.toNat && c.toNat ≤ 8202) ||
  c.toNat = 8232 || c.toNat = 8233 || c.toNat = 8239 || c.toNat = 8287 ||
  c.toNat = 12288 || c.toNat = 65279

/-- JavaScript `trim()` on a character list: drop leading and trailing
whitespace. -/
def jsTrimL (l : List Char) : List Char :=
  List.rdropWhile isJsWs (List.dropWhile isJsWs l)

/-- JavaScript `inputCode.trim()`. -/
def jsTrim (s : String) : String := String.mk (jsTrimL s.data)

/-- JavaScript `String.prototype.split` on a single separator character:
`"".split(c) = [""]`, separators at either end produce empty segments. -/
def splitChar (c : Char) : List Char → List (List Char)
  | [] => [[]]
  | x :: xs =>
    if x = c then [] :: splitChar c xs
    else
      match splitChar c xs with
      | [] => [[x]]
      | h :: t => (x :: h) :: t

/-- Whether `pat` is an initial segment of `l`. -/
def headMatch : List Char → List Char → Bool
  | [], _ => true
  | _ :: _, [] => false
  | p :: ps, c :: cs => p = c && headMatch ps cs

/-- JavaScript `String.prototype.replace` with a plain-string pattern:
replace the first occurrence only. -/
def replFirst (pat rep : List Char) : List Char → List Char
  | [] => []
  | c :: rest =>
    if headMatch pat (c :: rest) then rep ++ (c :: rest).drop pat.length
    else c :: replFirst pat rep rest

/-- Fuel-indexed worker for global plain-string replacement. -/
def replAllAux (pat rep : List Char) : Nat → List Char → List Char
  | 0, l => l
  | _ + 1, [] => []
  | f + 1, c :: rest =>
    if !pat.isEmpty && headMatch pat (c :: rest) then
      rep ++ replAllAux pat rep f ((c :: rest).drop pat.length)
    else c :: replAllAux pat rep f rest

/-- JavaScript `String.prototype.replace` with a `/pat/g` regex whose pattern
is a plain string: replace every non-overlapping occurrence, left to right. -/
def replAll (pat rep l : List Char) : List Char :=
  replAllAux pat rep l.length l

/-- Split a character list at the first double quote: returns the content
before the quote and the remainder after it, or `none` when no quote occurs.
This is the `[^"]*"` tail of the attribute-value regexes. -/
def splitAtQuote : List Char → Option (List Char × List Char)
  | [] => none
  | c :: rest =>
    if c = '"' then some ([], rest)
    else
      match splitAtQuote rest with
      | none => none
      | some (a, b) => some (c :: a, b)

/-- JavaScript `replace(/pre"[^"]*"/, rep)` (no `g` flag): rewrite the first
position where `pre` (ending in `="`) matches and a closing quote follows;
positions where no closing quote follows fail and scanning continues. -/
def replAttrFirst (pre rep : List Char) : List Char → List Char
  | [] => []
  | c :: rest =>
    if headMatch pre (c :: rest) then
      match splitAtQuote ((c :: rest).drop pre.length) with
      | some (_, after) => rep ++ after
      | none => c :: replAttrFirst pre rep rest
    else c :: replAttrFirst pre rep rest

/-- ASCII lowercase letter test, the `[a-z]` character class. -/
def isLowerAZ (c : Char) : Bool := 'a' ≤ c && c ≤ 'z'

/-- JavaScript replace of the global regex hyphen-then-`([a-z])` with
`g => g[1].toUpperCase()`: every hyphen followed by a lowercase letter is
removed and the letter upper-cased. -/
def camel : List Char → List Char
  | [] => []
  | '-' :: c :: rest =>
    if isLowerAZ c then c.toUpper :: camel rest else '-' :: camel (c :: rest)
  | c :: rest => c :: camel rest

/-- Convert a string literal to its character list. -/
def strL (s : String) : List Char := s.data

/-- JavaScript replace of the global single-quote regex with a
backslash-quote pair: escape every single quote. -/
def escSquote : List Char → List Char
  | [] => []
  | c :: r => if c = squote then bslash :: squote :: escSquote r else c :: escSquote r

/-- The replacement produced for one inline `style` attribute: the captured
declaration text camel-cased and wrapped in a double-brace object literal. -/
def styleRep (content : List Char) : List Char :=
  strL "style=\x7b\x7b" ++ camel content ++ strL "\x7d\x7d"

/-- Fuel-indexed worker for the global inline-style rewrite. -/
def styleAllAux : Nat → List Char → List Char
  | 0, l => l
  | _ + 1, [] => []
  | f + 1, c :: rest =>
    if headMatch (strL "style=\"") (c :: rest) then
      match splitAtQuote ((c :: rest).drop 7) with
      | some (content, after) => styleRep content ++ styleAllAux f after
      | none => c :: styleAllAux f rest
    else c :: styleAllAux f rest

/-- JavaScript replace of the global regex `style="([^"]*)"` with the
camel-casing object-literal replacer: every matched attribute is rewritten,
scanning resumes after each match. -/
def styleAll (l : List Char) : List Char := styleAllAux l.length l

/-- First match of the regex quote-`([^q]+)`-quote for a quote character `q`:
the content of the first properly closed, non-empty `q`-quoted token;
positions where the token is empty or unterminated fail and scanning
continues one character later, exactly as a regex engine advances. -/
def firstQuoted (q : Char) : List Char → Option (List Char)
  | [] => none
  | c :: rest =>
    if c = q then
      let content := rest.takeWhile (fun x => x ≠ q)
      let rest'   := rest.dropWhile (fun x => x ≠ q)
      if content ≠ [] ∧ rest' ≠ [] then some content else firstQuoted q rest
    else firstQuoted q rest

/-- Join a list of strings with a separator, the JavaScript `Array.join`. -/
def joinSep (sep : String) : List String → String
  | [] => ""
  | [x] => x
  | x :: y :: rest => x ++ sep ++ joinSep sep (y :: rest)

/-- JSON values as produced by `JSON.parse`.  A number keeps its source
lexeme: the engine never uses the numeric value, only the runtime-type test
`typeof v === "number"`. -/
inductive Json where
  | null
  | bool (b : Bool)
  | num (lexeme : String)
  | str (s : String)
  | arr (elems : List Json)
  | obj (fields : List (String × Json))

mutual

/-- Structural equality of JSON values. -/
def jsonBeq : Json → Json → Bool
  | .null, .null => true
  | .bool a, .bool b => a = b
  | .num a, .num b => a = b
  | .str a, .str b => a = b
  | .arr a, .arr b => jsonListBeq a b
  | .obj a, .obj b => jsonFieldsBeq a b
  | _, _ => false

/-- Structural equality of JSON value lists. -/
def jsonListBeq : List Json → List Json → Bool
  | [], [] => true
  | x :: xs, y :: ys => jsonBeq x y && jsonListBeq xs ys
  | _, _ => false

/-- Structural equality of JSON object field lists. -/
def jsonFieldsBeq : List (String × Json) → List (String × Json) → Bool
  | [], [] => true
  | (k, v) :: xs, (k2, v2) :: ys => k = k2 && jsonBeq v v2 && jsonFieldsBeq xs ys
  | _, _ => false

end

/-- JavaScript property assignment on an object literal: an existing key
keeps its position and takes the new value, a new key is appended. -/
def jsInsert {α : Type} (fields : List (String × α)) (k : String) (v : α) :
    List (String × α) :=
  if fields.any (fun p => p.1 = k) then
    fields.map (fun p => if p.1 = k then (k, v) else p)
  else fields ++ [(k, v)]

/-- ASCII decimal digit test. -/
def isDigitAZ (c : Char) : Bool := '0' ≤ c && c ≤ '9'

/-- Numeric value of a string of decimal digits. -/
def digitsToNat (l : List Char) : Nat :=
  l.foldl (fun n c => 10 * n + (c.toNat - 48)) 0

/-- Whether a property key is an array index in the ECMAScript sense: a
canonical decimal numeral strictly below 2^32 - 1.  Such keys are enumerated
first, in ascending numeric order. -/
def isIndexKey (s : String) : Bool :=
  match s.data with
  | [] => false
  | c :: rest =>
    (c :: rest).all isDigitAZ && (c ≠ '0' || rest.isEmpty) &&
      digitsToNat (c :: rest) < 4294967295

/-- Numeric value of an index key. -/
def keyNat (s : String) : Nat := digitsToNat s.data

/-- Insert one pair into a list sorted ascending by numeric key value. -/
def insertByNat {α : Type} (x : String × α) :
    List (String × α) → List (String × α)
  | [] => [x]
  | y :: ys => if keyNat x.1 ≤ keyNat y.1 then x :: y :: ys else y :: insertByNat x ys

/-- Insertion sort by numeric key value. -/
def sortByNat {α : Type} : List (String × α) → List (String × α)
  | [] => []
  | x :: xs => insertByNat x (sortByNat xs)

/-- ECMAScript own-property enumeration order over a set of string-keyed
entries: array-index keys first in ascending numeric order, then the
remaining keys in insertion order.  Both `Object.entries` and
`JSON.stringify` enumerate in this order. -/
def orderKeys {α : Type} (es : List (String × α)) : List (String × α) :=
  sortByNat (es.filter (fun p => isIndexKey p.1)) ++
    es.filter (fun p => !isIndexKey p.1)

/-- Lowercase hexadecimal digit. -/
def hexDigit (n : Nat) : Char :=
  if n < 10 then Char.ofNat (48 + n) else Char.ofNat (87 + n)

/-- Escaping of one character inside a `JSON.stringify` string literal. -/
def jsonEscapeChar (c : Char) : List Char :=
  if c = '"' then [bslash, '"']
  else if c = bslash then [bslash, bslash]
  else if c.toNat = 8 then [bslash, 'b']
  else if c.toNat = 9 then [bslash, 't']
  else if c.toNat = 10 then [bslash, 'n']
  else if c.toNat = 12 then [bslash, 'f']
  else if c.toNat = 13 then [bslash, 'r']
  else if c.toNat < 32 then
    [bslash, 'u', '0', '0', hexDigit (c.toNat / 16), hexDigit (c.toNat % 16)]
  else [c]

/-- A `JSON.stringify` double-quoted string literal. -/
def jsonQuote (s : String) : String :=
  String.mk ('"' :: s.data.foldr (fun c acc => jsonEscapeChar c ++ acc) ['"'])

/-- `JSON.stringify(obj, null, 2)` for an object whose values are strings:
two-space indentation, one `"key": "value"` line per entry, entries in
own-property enumeration order. -/
def stringify2 (es : List (String × String)) : String :=
  match orderKeys es with
  | [] => "\x7b\x7d"
  | e :: rest =>
    "\x7b\n" ++
      joinSep ",\n" ((e :: rest).map fun p => "  " ++ jsonQuote p.1 ++ ": " ++ jsonQuote p.2) ++
    "\n\x7d"

/-- JSON insignificant whitespace. -/
def jsonWsChar (c : Char) : Bool :=
  c.toNat = 32 || c.toNat = 9 || c.toNat = 10 || c.toNat = 13

/-- Skip JSON insignificant whitespace. -/
def skipWs (l : List Char) : List Char := l.dropWhile jsonWsChar

/-- Value of one hexadecimal digit. -/
def hexVal (c : Char) : Option Nat :=
  if '0' ≤ c ∧ c ≤ '9' then some (c.toNat - 48)
  else if 'a' ≤ c ∧ c ≤ 'f' then some (c.toNat - 87)
  else if 'A' ≤ c ∧ c ≤ 'F' then some (c.toNat - 55)
  else none

/-- Read exactly four hexadecimal digits. -/
def read4Hex : List Char → Option (Nat × List Char)
  | a :: b :: c :: d :: rest =>
    match hexVal a, hexVal b, hexVal c, hexVal d with
    | some x, some y, some z, some w => some (4096 * x + 256 * y + 16 * z + w, rest)
    | _, _, _, _ => none
  | _ => none

/-- Fuel-indexed worker for JSON string-literal bodies, positioned after the
opening quote.  Escape sequences follow `JSON.parse`; a `\u` escape that
would produce a lone UTF-16 surrogate (which a Lean `Char` cannot hold) is
embedded as U+FFFD, an explicit modelling choice that no claim exercises. -/
def pStrAux : Nat → List Char → List Char → Option (String × List Char)
  | 0, _, _ => none
  | _ + 1, _, [] => none
  | f + 1, acc, c :: rest =>
    if c = '"' then some (String.mk acc, rest)
    else if c = bslash then
      match rest with
      | [] => none
      | e :: r2 =>
        if e = '"' ∨ e = bslash ∨ e = '/' then pStrAux f (acc ++ [e]) r2
        else if e = 'b' then pStrAux f (acc ++ [Char.ofNat 8]) r2
        else if e = 'f' then pStrAux f (acc ++ [Char.ofNat 12]) r2
        else if e = 'n' then pStrAux f (acc ++ [Char.ofNat 10]) r2
        else if e = 'r' then pStrAux f (acc ++ [Char.ofNat 13]) r2
        else if e = 't' then pStrAux f (acc ++ [Char.ofNat 9]) r2
        else if e = 'u' then
          match read4Hex r2 with
          | none => none
          | some (n, r3) =>
            if 55296 ≤ n ∧ n ≤ 56319 then
              match r3 with
              | b1 :: u1 :: r4 =>
                if b1 = bslash ∧ u1 = 'u' then
                  match read4Hex r4 with
                  | some (m, r5) =>
                    if 56320 ≤ m ∧ m ≤ 57343 then
                      pStrAux f (acc ++ [Char.ofNat (65536 + 1024 * (n - 55296) + (m - 56320))]) r5
                    else pStrAux f (acc ++ [Char.ofNat 65533]) r3
                  | none => pStrAux f (acc ++ [Char.ofNat 65533]) r3
                else pStrAux f (acc ++ [Char.ofNat 65533]) r3
              | _ => pStrAux f (acc ++ [Char.ofNat 65533]) r3
            else if 56320 ≤ n ∧ n ≤ 57343 then pStrAux f (acc ++ [Char.ofNat 65533]) r3
            else pStrAux f (acc ++ [Char.ofNat n]) r3
        else none
    else if c.toNat < 32 then none
    else pStrAux f (acc ++ [c]) rest

/-- Parse a JSON string-literal body, positioned after the opening quote. -/
def pStr (l : List Char) : Option (String × List Char) :=
  pStrAux (l.length + 1) [] l

/-- Parse a JSON number at the head of the input, returning its lexeme.
Grammar: optional minus; `0` or a nonzero-led digit run; optional fraction
(consumed only when a digit follows the dot); optional exponent (consumed
only when a digit follows the marker and optional sign). -/
def pNumber (l : List Char) : Option (List Char × List Char) :=
  let (sign, l1) := match l with
    | c :: rest => if c = '-' then ([c], rest) else ([], l)
    | [] => ([], l)
  match l1 with
  | [] => none
  | c :: rest =>
    if ¬ isDigitAZ c then none
    else
      let (intPart, l2) :=
        if c = '0' then ([c], rest)
        else (c :: rest.takeWhile isDigitAZ, rest.dropWhile isDigitAZ)
      let (fracPart, l3) := match l2 with
        | d :: e :: r =>
          if d = '.' ∧ isDigitAZ e then
            (d :: e :: r.takeWhile isDigitAZ, r.dropWhile isDigitAZ)
          else ([], l2)
        | _ => ([], l2)
      let (expPart, l4) := match l3 with
        | x :: r =>
          if x = 'e' ∨ x = 'E' then
            match r with
            | s :: d :: r2 =>
              if (s = '+' ∨ s = '-') ∧ isDigitAZ d then
                ([x, s, d] ++ r2.takeWhile isDigitAZ, r2.dropWhile isDigitAZ)
              else if isDigitAZ s then
                ([x, s] ++ (d :: r2).takeWhile isDigitAZ, (d :: r2).dropWhile isDigitAZ)
              else ([], l3)
            | [s] => if isDigitAZ s then ([x, s], []) else ([], l3)
            | [] => ([], l3)
          else ([], l3)
        | [] => ([], l3)
      some (sign ++ intPart ++ fracPart ++ expPart, l4)

mutual

/-- Fuel-indexed `JSON.parse` value parser: skips leading whitespace and
dispatches on the first significant character. -/
def pVal : Nat → List Char → Option (Json × List Char)
  | 0, _ => none
  | f + 1, l =>
    let l1 := skipWs l
    match l1 with
    | [] => none
    | c :: rest =>
      if c = '"' then
        match pStr rest with
        | some (s, r) => some (.str s, r)
        | none => none
      else if c = lbrace then
        match skipWs rest with
        | c2 :: r2 =>
          if c2 = rbrace then some (.obj [], r2)
          else pMembers f (c2 :: r2) []
        | [] => none
      else if c = '[' then
        match skipWs rest with
        | ']' :: r2 => some (.arr [], r2)
        | r2 => pElems f r2 []
      else if headMatch (strL "true") l1 then some (.bool true, l1.drop 4)
      else if headMatch (strL "false") l1 then some (.bool false, l1.drop 5)
      else if headMatch (strL "null") l1 then some (.null, l1.drop 4)
      else
        match pNumber l1 with
        | some (lex, r) => some (.num (String.mk lex), r)
        | none => none

/-- Fuel-indexed parser for the members of a JSON object, positioned at a
key (whitespace already skipped).  Duplicate keys follow JavaScript object
semantics via `jsInsert`: last value wins, first position kept. -/
def pMembers : Nat → List Char → List (String × Json) →
    Option (Json × List Char)
  | 0, _, _ => none
  | f + 1, l, acc =>
    match l with
    | [] => none
    | c :: rest =>
      if c = '"' then
        match pStr rest with
        | none => none
        | some (k, r1) =>
          match skipWs r1 with
          | ':' :: r2 =>
            match pVal f r2 with
            | none => none
            | some (v, r3) =>
              match skipWs r3 with
              | ',' :: r4 => pMembers f (skipWs r4) (jsInsert acc k v)
              | c2 :: r4 =>
                if c2 = rbrace then some (.obj (jsInsert acc k v), r4) else none
              | [] => none
          | _ => none
      else none

/-- Fuel-indexed parser for the elements of a JSON array, positioned at an
element. -/
def pElems : Nat → List Char → List Json → Option (Json × List Char)
  | 0, _, _ => none
  | f + 1, l, acc =>
    match pVal f l with
    | none => none
    | some (v, r1) =>
      match skipWs r1 with
      | ',' :: r2 => pElems f r2 (acc ++ [v])
      | ']' :: r2 => some (.arr (acc ++ [v]), r2)
      | _ => none

end

/-- `JSON.parse`: parse one value, then require only whitespace to follow.
`none` models the `SyntaxError` the source catches in its `try` block. -/
def jsonParse (s : String) : Option Json :=
  match pVal (2 * s.length + 8) s.data with
  | some (j, rest) => if skipWs rest = [] then some j else none
  | none => none

/-- JavaScript `Object.entries`.  `none` models the `TypeError` thrown on
`null`; primitives yield no own entries except strings and arrays, which
yield index-keyed entries; objects enumerate in own-property order. -/
def jsObjectEntries : Json → Option (List (String × Json))
  | .null => none
  | .bool _ => some []
  | .num _ => some []
  | .str s => some (s.data.enum.map fun p => (toString p.1, Json.str (String.mk [p.2])))
  | .arr xs => some (xs.enum.map fun p => (toString p.1, p.2))
  | .obj fields => some (orderKeys fields)

/-- The `css_obj` per-line accumulator of `page.tsx` lines 190-197:
`const [key, val] = line.split(":")` takes the first two segments; when both
are truthy (non-empty) the trimmed key is camel-cased and the trimmed value
has its first `;` removed and single quotes escaped. -/
def cssLineStep (acc : List (String × String)) (line : List Char) :
    List (String × String) :=
  match splitChar ':' line with
  | k :: v :: _ =>
    if k ≠ [] ∧ v ≠ [] then
      jsInsert acc (String.mk (camel (jsTrimL k)))
        (String.mk (escSquote (replFirst [';'] [] (jsTrimL v))))
    else acc
  | _ => acc

/-- The `css_obj` conversion of `page.tsx` lines 188-198: fold the lines and
pretty-print with `JSON.stringify(obj, null, 2)`. -/
def cssObjConvert (clean : String) : String :=
  stringify2 ((splitChar (Char.ofNat 10) clean.data).foldl cssLineStep [])

/-- The `svg_tailwind` conversion of `page.tsx` lines 199-208: four
first-match attribute-value substitutions, three global hyphenated-attribute
renames, then the fixed Tailwind component template. -/
def svgTailwindConvert (clean : String) : String :=
  let r1 := replAttrFirst (strL "width=\"") (strL "className=\x7bclassName\x7d") clean.data
  let r2 := replAttrFirst (strL "height=\"") [] r1
  let r3 := replAttrFirst (strL "stroke=\"") (strL "stroke=\"currentColor\"") r2
  let r4 := replAttrFirst (strL "fill=\"") (strL "fill=\"none\"") r3
  let r5 := replAll (strL "stroke-width=") (strL "strokeWidth=") r4
  let r6 := replAll (strL "stroke-linecap=") (strL "strokeLinecap=") r5
  let r7 := replAll (strL "stroke-linejoin=") (strL "strokeLinejoin=") r6
  "export const Icon = (\x7b className = \"w-6 h-6\" \x7d) => (\n  " ++
    String.mk r7 ++ "\n);"

/-- The shared `html_jsx`/`jsx` rewrite of `page.tsx` lines 218-221: global
`class=` and `for=` renames, then the global inline-style rewrite. -/
def htmlJsxRewrite (clean : String) : String :=
  String.mk (styleAll (replAll (strL "for=") (strL "htmlFor=")
    (replAll (strL "class=") (strL "className=") clean.data)))

/-- The extra `jsx` wrapping of `page.tsx` line 222: spread `props` onto the
first `<svg` and wrap in the fixed component template. -/
def jsxWrap (r : String) : String :=
  "export const IconComponent = (props) => (\n  " ++
    String.mk (replFirst (strL "<svg") (strL "<svg \x7b...props\x7d") r.data) ++
  "\n);"

/-- The `curl_fetch` conversion of `page.tsx` lines 209-212: the first
single-quoted token, else the first double-quoted token, else the fixed
placeholder, embedded in the fixed fetch template. -/
def curlFetchConvert (clean : String) : String :=
  let url := match firstQuoted squote clean.data with
    | some u => u
    | none =>
      match firstQuoted '"' clean.data with
      | some u => u
      | none => strL "https://api.example.com"
  "fetch(\x27" ++ String.mk url ++
    "\x27, \x7b\n  method: \x27GET\x27,\n  headers: \x7b\n    \x27Content-Type\x27: \x27application/json\x27\n  \x7d\n\x7d).then(res => res.json());"

/-- One `typebox` field line of `page.tsx` line 215: `Type.Number()` exactly
when `typeof v === "number"`, else `Type.String()`. -/
def typeboxField (p : String × Json) : String :=
  "  " ++ p.1 ++ ": Type." ++
    (match p.2 with | .num _ => "Number" | _ => "String") ++ "()"

/-- The `typebox` declaration of `page.tsx` lines 215-216. -/
def typeboxRender (es : List (String × Json)) : String :=
  "const T = Type.Object(\x7b\n" ++ joinSep ",\n" (es.map typeboxField) ++ "\n\x7d)"

/-- Upper-case the first character of a string. -/
def capitalizeStr (s : String) : String :=
  match s.data with
  | [] => s
  | c :: r => String.mk (c.toUpper :: r)

/-- Look up a previously named object shape. -/
def findShape (named : List (String × List (String × Json)))
    (fs : List (String × Json)) : Option String :=
  match named.find? (fun p => jsonFieldsBeq p.2 fs) with
  | some p => some p.1
  | none => none

/-- Modelled from the spec: the external `json-to-ts` library (not part of
this repository's sources) infers the TypeScript type of one field value —
primitives by runtime kind, arrays by the element type, nested objects by a
named interface per distinct shape (named after the capitalized key). -/
def tsFieldType (key : String) (v : Json)
    (named : List (String × List (String × Json))) :
    String × List (String × List (String × Json)) :=
  match v with
  | .num _ => ("number", named)
  | .str _ => ("string", named)
  | .bool _ => ("boolean", named)
  | .null => ("any", named)
  | .arr [] => ("any[]", named)
  | .arr (x :: _) =>
    match tsFieldType key x named with
    | (t, n2) => (t ++ "[]", n2)
  | .obj fs =>
    match findShape named fs with
    | some name => (name, named)
    | none => (capitalizeStr key, named ++ [(capitalizeStr key, fs)])

/-- Modelled from the spec: the field lines of one interface, threading the
set of discovered shapes. -/
def tsFields : List (String × Json) → List (String × List (String × Json)) →
    List String × List (String × List (String × Json))
  | [], n => ([], n)
  | (k, v) :: rest, n =>
    match tsFieldType k v n with
    | (t, n2) =>
      match tsFields rest n2 with
      | (ls, n3) => (("  " ++ k ++ ": " ++ t ++ ";") :: ls, n3)

/-- One emitted interface declaration. -/
def renderInterface (name : String) (lines : List String) : String :=
  "interface " ++ name ++ " \x7b\n" ++ joinSep "\n" lines ++ "\n\x7d"

/-- Modelled from the spec: emit the queued interfaces in discovery order,
appending newly discovered nested shapes to the queue. -/
def tsEmit : Nat → List (String × List (String × Json)) →
    List (String × List (String × Json)) → List String
  | 0, _, _ => []
  | _ + 1, [], _ => []
  | f + 1, (name, fs) :: rest, named =>
    match tsFields fs named with
    | (lines, n2) =>
      renderInterface name lines :: tsEmit f (rest ++ n2.drop named.length) n2

mutual

/-- Node count of a JSON value, a fuel bound for the interface queue. -/
def jsonSize : Json → Nat
  | .null => 1
  | .bool _ => 1
  | .num _ => 1
  | .str _ => 1
  | .arr xs => 1 + jsonListSize xs
  | .obj fs => 1 + jsonFieldsSize fs

/-- Node count of a JSON value list. -/
def jsonListSize : List Json → Nat
  | [] => 0
  | x :: xs => jsonSize x + jsonListSize xs

/-- Node count of a JSON field list. -/
def jsonFieldsSize : List (String × Json) → Nat
  | [] => 0
  | (_, v) :: xs => 1 + jsonSize v + jsonFieldsSize xs

end

/-- Modelled from the spec: the `json-to-ts` library, which is imported by
`page.tsx` but whose code is not under `src/`.  Per the spec it emits one
interface declaration per distinct nested object shape, in discovery order,
the root named `RootObject`; it rejects non-object roots. -/
def jsonToTS : Json → List String
  | .obj fs => tsEmit (jsonFieldsSize fs + 1) [("RootObject", fs)] [("RootObject", fs)]
  | _ => []

/-- The observable outcome of one engine invocation.  `ok` carries the text
passed to `setOutputCode`; `emptyInput` is the early return on blank input;
`parseError` is an exception caught by the surrounding `try`, after which no
output is written. -/
inductive TransformResult where
  | ok (output : String)
  | emptyInput
  | parseError
deriving DecidableEq

/-- The dispatch of `handleConvert` (`page.tsx` lines 180-225) over the
already trimmed input: branch on the conversion id in source order, with the
fallback echo for ids that have no wired transformation. -/
def convertClean (targetLang cleanInput : String) : TransformResult :=
  if cleanInput = "" then .emptyInput
  else if targetLang = "typescript" then
    match jsonParse cleanInput with
    | none => .parseError
    | some (.obj fs) => .ok (joinSep "\n\n" (jsonToTS (.obj fs)))
    | some _ => .parseError
  else if targetLang = "css_obj" then .ok (cssObjConvert cleanInput)
  else if targetLang = "svg_tailwind" then .ok (svgTailwindConvert cleanInput)
  else if targetLang = "curl_fetch" then .ok (curlFetchConvert cleanInput)
  else if targetLang = "typebox" then
    match jsonParse cleanInput with
    | none => .parseError
    | some j =>
      match jsObjectEntries j with
      | none => .parseError
      | some es => .ok (typeboxRender es)
  else if targetLang = "html_jsx" ∨ targetLang = "jsx" then
    if targetLang = "jsx" then .ok (jsxWrap (htmlJsxRewrite cleanInput))
    else .ok (htmlJsxRewrite cleanInput)
  else .ok ("// Converted " ++ targetLang ++ ":\n" ++ cleanInput)

/-- `handleConvert` of `page.tsx` lines 180-235: the guard
`if (!inputCode.trim()) return` and `const cleanInput = inputCode.trim()`
mean every branch sees exactly the trimmed input. -/
def handleConvert (targetLang inputCode : String) : TransformResult :=
  convertClean targetLang (jsTrim inputCode)

/-- The caller-visible output state transition: `setOutputCode(result)` runs
only on success; on the early return or a caught exception the previous
output stands. -/
def applyOutput (prev : String) : TransformResult → String
  | .ok o => o
  | .emptyInput => prev
  | .parseError => prev

/-! ## Supporting lemmas -/

/-- Left-trimming is preserved by right-trimming: `rdropWhile` only removes
a suffix, so a list whose head already fails `p` keeps that property. -/
theorem dropWhile_rdropWhile_self (p : Char → Bool) (x : List Char)
    (h : List.dropWhile p x = x) :
    List.dropWhile p (List.rdropWhile p x) = List.rdropWhile p x := by
  obtain ⟨t, ht⟩ := List.rdropWhile_prefix p x
  cases hr : List.rdropWhile p x with
  | nil => simp
  | cons a as =>
    rw [hr] at ht
    have hx : a :: (as ++ t) = x := by simpa using ht
    subst hx
    rw [List.dropWhile_cons] at h
    by_cases hpa : p a
    · rw [if_pos hpa] at h
      have hle : (List.dropWhile p (as ++ t)).length ≤ (as ++ t).length :=
        (List.dropWhile_suffix p).length_le
      rw [h] at hle
      simp only [List.length_cons] at hle
      omega
    · rw [List.dropWhile_cons, if_neg hpa]

/-- JavaScript `trim` is idempotent on character lists. -/
theorem jsTrimL_idem (l : List Char) : jsTrimL (jsTrimL l) = jsTrimL l := by
  unfold jsTrimL
  rw [dropWhile_rdropWhile_self _ _ (List.dropWhile_idempotent _ _),
    List.rdropWhile_idempotent]

/-- JavaScript `trim` is idempotent. -/
theorem jsTrim_idem (s : String) : jsTrim (jsTrim s) = jsTrim s := by
  show String.mk (jsTrimL (jsTrimL s.data)) = String.mk (jsTrimL s.data)
  rw [jsTrimL_idem]

/-! ## Claims -/

/-- C10: for every conversion id and every input whose trimmed form is
non-empty, the result equals the result on the trimmed input: every branch
of `handleConvert` operates on `inputCode.trim()`, so surrounding whitespace
never affects the output. -/
theorem trim_invariance (id s : String) (h : jsTrim s ≠ "") :
    handleConvert id s = handleConvert id (jsTrim s) := by
  unfold handleConvert
  rw [jsTrim_idem]

/-- Witness for C10 at a concrete whitespace-padded input. -/
theorem trim_invariance_witness :
    jsTrim "  x " ≠ "" ∧
      handleConvert "zod" "  x " = handleConvert "zod" (jsTrim "  x ") :=
  ⟨by decide, trim_invariance "zod" "  x " (by decide)⟩

/-- C2: for every conversion id, a blank or whitespace-only input yields the
empty-input classification — no branch runs, nothing is thrown, and the
previous output is untouched. -/
theorem empty_input_noop (id s prev : String) (h : jsTrim s = "") :
    handleConvert id s = .emptyInput ∧
      applyOutput prev (handleConvert id s) = prev := by
  unfold handleConvert
  rw [h]
  exact ⟨rfl, rfl⟩

/-- Witness for C2 at a whitespace-only input. -/
theorem empty_input_noop_witness :
    jsTrim " \n\t " = "" ∧
      (handleConvert "typescript" " \n\t " = .emptyInput ∧
        applyOutput "keep" (handleConvert "typescript" " \n\t ") = "keep") :=
  ⟨by decide, empty_input_noop "typescript" " \n\t " "keep" (by decide)⟩

/-- C3: for every non-blank input that does not parse as JSON, the
JSON-parsing conversions (`typescript`, `typebox`) classify the invocation
as a parse error — the thrown `SyntaxError` is caught at the engine boundary
— and the previously displayed output is left unchanged. -/
theorem parse_error_preserves_output (id s prev : String)
    (hid : id = "typescript" ∨ id = "typebox")
    (hne : jsTrim s ≠ "") (hp : jsonParse (jsTrim s) = none) :
    handleConvert id s = .parseError ∧
      applyOutput prev (handleConvert id s) = prev := by
  unfold handleConvert convertClean
  rcases hid with h | h
  · subst h
    rw [if_neg hne, if_pos rfl, hp]
    exact ⟨rfl, rfl⟩
  · subst h
    rw [if_neg hne, if_neg (by decide), if_neg (by decide), if_neg (by decide),
      if_neg (by decide), if_pos rfl, hp]
    exact ⟨rfl, rfl⟩

/-- Witness for C3 at the spec's concrete input `not json`. -/
theorem parse_error_preserves_output_witness :
    jsonParse (jsTrim "not json") = none ∧
      (handleConvert "typescript" "not json" = .parseError ∧
        applyOutput "prior" (handleConvert "typescript" "not json") = "prior") :=
  ⟨rfl, parse_error_preserves_output "typescript" "not json" "prior"
    (Or.inl rfl) (by decide) rfl⟩

/-- C1 fails on the code: the `zod`, `mongoose` and `sql` ids have no wired
branch in `handleConvert` and fall through to the fallback echo, emitting no
schema or CREATE TABLE declaration.  This theorem evaluates the code at the
failing inputs (the code's own placeholder examples). -/
theorem zod_mongoose_sql_fallback_eval :
    handleConvert "zod" "\x7b\"username\":\"dev_user\",\"age\":25\x7d" =
      .ok "// Converted zod:\n\x7b\"username\":\"dev_user\",\"age\":25\x7d" ∧
    handleConvert "mongoose" "\x7b\"title\":\"Post\",\"views\":100\x7d" =
      .ok "// Converted mongoose:\n\x7b\"title\":\"Post\",\"views\":100\x7d" ∧
    handleConvert "sql" "\x7b\"id\":1,\"username\":\"alice\"\x7d" =
      .ok "// Converted sql:\n\x7b\"id\":1,\"username\":\"alice\"\x7d" := by
  refine ⟨by decide, by decide, by decide⟩

/-- C6 fails on the code: the plain `jsx` branch applies only the `class=`,
`for=` and inline-`style` rewrites plus the `props` spread; the hyphenated
`stroke-width`/`stroke-linecap`/`stroke-linejoin` renames happen only in the
`svg_tailwind` branch, so `stroke-width` survives unrewritten — contradicting
the code's own `jsx` placeholder, which shows `strokeWidth="4"`.  This
theorem evaluates the code at the failing input. -/
theorem jsx_keeps_hyphenated_attributes_eval :
    handleConvert "jsx" "<svg stroke-width=\"4\"/>" =
      .ok "export const IconComponent = (props) => (\n  <svg \x7b...props\x7d stroke-width=\"4\"/>\n);" := by
  decide

/-- C4: the JSON-to-TypeScript conversion on the spec's example emits an
interface with `id: number`, `name: string`, `isActive: boolean`, boolean
distinguished from number and string; in general the output is the
blank-line-separated concatenation of the interface declarations produced by
the (spec-modelled) json-to-ts walk, one per distinct nested object shape in
discovery order. -/
theorem typescript_conversion (s : String) (fs : List (String × Json))
    (h : jsonParse (jsTrim s) = some (.obj fs)) :
    handleConvert "typescript" s = .ok (joinSep "\n\n" (jsonToTS (.obj fs))) ∧
    handleConvert "typescript" "\x7b\"id\":1,\"name\":\"John Doe\",\"isActive\":true\x7d" =
      .ok "interface RootObject \x7b\n  id: number;\n  name: string;\n  isActive: boolean;\n\x7d" := by
  constructor
  · have hne : jsTrim s ≠ "" := by
      intro he
      rw [he] at h
      have h0 : jsonParse "" = none := rfl
      rw [h0] at h
      exact Option.noConfusion h
    unfold handleConvert convertClean
    rw [if_neg hne, if_pos rfl, h]
  · decide

/-- Witness for C4 at the spec's example input. -/
theorem typescript_conversion_witness :
    jsonParse (jsTrim "\x7b\"id\":1,\"name\":\"John Doe\",\"isActive\":true\x7d") =
      some (.obj [("id", .num "1"), ("name", .str "John Doe"), ("isActive", .bool true)]) ∧
    handleConvert "typescript" "\x7b\"id\":1,\"name\":\"John Doe\",\"isActive\":true\x7d" =
      .ok (joinSep "\n\n" (jsonToTS (.obj
        [("id", .num "1"), ("name", .str "John Doe"), ("isActive", .bool true)]))) :=
  ⟨rfl, (typescript_conversion
    "\x7b\"id\":1,\"name\":\"John Doe\",\"isActive\":true\x7d"
    [("id", .num "1"), ("name", .str "John Doe"), ("isActive", .bool true)] rfl).1⟩

/-- C8: for every valid JSON object input, the TypeBox conversion emits one
`Type.Object` declaration with one field per key in the key-iteration order
of the parsed object, `Type.Number()` exactly when the runtime value is a
number, `Type.String()` otherwise (booleans and nested objects included);
and the HTML-to-JSX example rewrites `class=` and `for=` as stated. -/
theorem typebox_conversion (s : String) (fs : List (String × Json))
    (h : jsonParse (jsTrim s) = some (.obj fs)) :
    handleConvert "typebox" s =
      .ok ("const T = Type.Object(\x7b\n" ++
        joinSep ",\n" ((orderKeys fs).map fun p =>
          "  " ++ p.1 ++ ": Type." ++
            (match p.2 with | .num _ => "Number" | _ => "String") ++ "()") ++
        "\n\x7d)") ∧
    handleConvert "html_jsx" "<div class=\"a\" for=\"b\"></div>" =
      .ok "<div className=\"a\" htmlFor=\"b\"></div>" := by
  constructor
  · have hne : jsTrim s ≠ "" := by
      intro he
      rw [he] at h
      have h0 : jsonParse "" = none := rfl
      rw [h0] at h
      exact Option.noConfusion h
    unfold handleConvert convertClean
    rw [if_neg hne, if_neg (by decide), if_neg (by decide), if_neg (by decide),
      if_neg (by decide), if_pos rfl, h]
    rfl
  · decide

/-- Witness for C8 at an input with a numeric, a boolean and a nested-object
field, checking the binary number/string rule. -/
theorem typebox_conversion_witness :
    jsonParse (jsTrim "\x7b\"count\": 10, \"ok\": true, \"nested\": \x7b\x7d\x7d") =
      some (.obj [("count", .num "10"), ("ok", .bool true), ("nested", .obj [])]) ∧
    handleConvert "typebox" "\x7b\"count\": 10, \"ok\": true, \"nested\": \x7b\x7d\x7d" =
      .ok ("const T = Type.Object(\x7b\n" ++
        joinSep ",\n" ((orderKeys
          [("count", Json.num "10"), ("ok", Json.bool true), ("nested", Json.obj [])]).map fun p =>
          "  " ++ p.1 ++ ": Type." ++
            (match p.2 with | .num _ => "Number" | _ => "String") ++ "()") ++
        "\n\x7d)") :=
  ⟨rfl, (typebox_conversion "\x7b\"count\": 10, \"ok\": true, \"nested\": \x7b\x7d\x7d"
    [("count", .num "10"), ("ok", .bool true), ("nested", .obj [])] rfl).1⟩

/-- Per-line rule of the amended C5, written from the amended wording: split
the line on every colon and keep the first two segments (the value is the
text between the first and second colon), skip the line unless both are
non-empty, camel-case the trimmed key, remove the first semicolon of the
trimmed value and escape its single quotes. -/
def cssLineEntry (line : List Char) : Option (String × String) :=
  match splitChar ':' line with
  | k :: v :: _ =>
    if k = [] ∨ v = [] then none
    else some (String.mk (camel (jsTrimL k)),
      String.mk (escSquote (replFirst [';'] [] (jsTrimL v))))
  | _ => none

/-- Entry accumulation of the amended C5: qualifying lines in line order,
assigned with JavaScript object-key semantics. -/
def cssEntriesSpec : List (List Char) → List (String × String) →
    List (String × String)
  | [], acc => acc
  | line :: rest, acc =>
    match cssLineEntry line with
    | none => cssEntriesSpec rest acc
    | some (k, v) => cssEntriesSpec rest (jsInsert acc k v)

/-- The source's `reduce` step agrees with the amended-C5 per-line rule. -/
theorem cssLineStep_entry (acc : List (String × String)) (line : List Char) :
    cssLineStep acc line =
      match cssLineEntry line with
      | none => acc
      | some kv => jsInsert acc kv.1 kv.2 := by
  unfold cssLineStep cssLineEntry
  cases hs : splitChar ':' line with
  | nil => rfl
  | cons k tail =>
    cases tail with
    | nil => rfl
    | cons v t =>
      dsimp only
      by_cases hk : k = [] ∨ v = []
      · rw [if_pos hk,
          if_neg (fun hc => by rcases hk with hk | hk; exacts [hc.1 hk, hc.2 hk])]
      · rw [if_neg hk,
          if_pos ⟨fun hc => hk (Or.inl hc), fun hc => hk (Or.inr hc)⟩]

/-- The amended-C5 accumulator agrees with the source's `reduce` fold. -/
theorem cssEntriesSpec_eq (lines : List (List Char)) :
    ∀ acc, cssEntriesSpec lines acc = lines.foldl cssLineStep acc := by
  induction lines with
  | nil => intro acc; rfl
  | cons line rest ih =>
    intro acc
    rw [List.foldl_cons, ← ih, cssEntriesSpec, cssLineStep_entry]
    cases he : cssLineEntry line with
    | none => rfl
    | some kv => obtain ⟨k, v⟩ := kv; rfl

/-- C5 as stated fails on the code: the value of a line is the text between
the first and the second colon (`split(":")` keeps only the second segment),
not everything after the first colon, and the `;` removal strips the first
semicolon anywhere, not a trailing one.  At `margin: 10px; padding: 5px` the
code produces value `10px padding` where the claim's reading predicts
`10px; padding: 5px`. -/
theorem css_obj_first_colon_counterexample :
    handleConvert "css_obj" "margin: 10px; padding: 5px" =
      .ok "\x7b\n  \"margin\": \"10px padding\"\n\x7d" ∧
    handleConvert "css_obj" "margin: 10px; padding: 5px" ≠
      .ok "\x7b\n  \"margin\": \"10px; padding: 5px\"\n\x7d" :=
  ⟨by decide, by decide⟩

/-- C5 amended: the conversion splits the input into lines, keeps the first
two colon-separated segments of each line (content after a second colon is
discarded), skips lines lacking either segment, camel-cases the trimmed key,
removes the first semicolon of the trimmed value and escapes single quotes,
accumulating in line order; the claim's example input yields keys
`backgroundColor`/`marginTop` with values `#ffffff`/`20px`. -/
theorem css_obj_amended (s : String) (h : jsTrim s ≠ "") :
    handleConvert "css_obj" s =
      .ok (stringify2 (cssEntriesSpec (splitChar (Char.ofNat 10) (jsTrim s).data) [])) ∧
    handleConvert "css_obj" "background-color: #ffffff;\nmargin-top: 20px;" =
      .ok "\x7b\n  \"backgroundColor\": \"#ffffff\",\n  \"marginTop\": \"20px\"\n\x7d" ∧
    handleConvert "css_obj" "no colon line\nmargin-top: 20px;" =
      .ok "\x7b\n  \"marginTop\": \"20px\"\n\x7d" := by
  refine ⟨?_, by decide, by decide⟩
  unfold handleConvert convertClean
  rw [if_neg h, if_neg (by decide), if_pos rfl, cssEntriesSpec_eq]
  rfl

/-- Witness for C5's amended theorem at the claim's example input. -/
theorem css_obj_amended_witness :
    jsTrim "background-color: #ffffff;\nmargin-top: 20px;" ≠ "" ∧
    handleConvert "css_obj" "background-color: #ffffff;\nmargin-top: 20px;" =
      .ok (stringify2 (cssEntriesSpec (splitChar (Char.ofNat 10)
        (jsTrim "background-color: #ffffff;\nmargin-top: 20px;").data) [])) :=
  ⟨by decide,
    (css_obj_amended "background-color: #ffffff;\nmargin-top: 20px;" (by decide)).1⟩

/-- C7 as stated fails on the code: the `class=` rewrite of the HTML-to-JSX
conversion is a global regex, so the second occurrence is rewritten too,
where the claim predicts it is left as `class=`. -/
theorem first_match_only_counterexample :
    handleConvert "html_jsx" "<div class=\"a\"><b class=\"c\"/></div>" =
      .ok "<div className=\"a\"><b className=\"c\"/></div>" ∧
    handleConvert "html_jsx" "<div class=\"a\"><b class=\"c\"/></div>" ≠
      .ok "<div className=\"a\"><b class=\"c\"/></div>" :=
  ⟨by decide, by decide⟩

/-- The leftmost occurrence of a plain pattern: `some (b, a)` means
`l = b ++ pat ++ a` with no occurrence starting inside `b`.  The guard is
the same one `replAllAux` scans with. -/
def findPat (pat : List Char) : List Char → Option (List Char × List Char)
  | [] => none
  | c :: rest =>
    if !pat.isEmpty && headMatch pat (c :: rest) then
      some ([], (c :: rest).drop pat.length)
    else
      match findPat pat rest with
      | none => none
      | some (b, a) => some (c :: b, a)

/-- The leftmost match of the attribute-value regex `pre"[^"]*"`:
`some (b, content, a)` means `l = b ++ pre ++ content ++ quote ++ a` with no
match starting inside `b`; positions where `pre` matches but no closing
quote follows fail, as in the regexes. -/
def findAttr (pre : List Char) : List Char → Option (List Char × List Char × List Char)
  | [] => none
  | c :: rest =>
    if headMatch pre (c :: rest) then
      match splitAtQuote ((c :: rest).drop pre.length) with
      | some (content, after) => some ([], content, after)
      | none =>
        match findAttr pre rest with
        | none => none
        | some (b, content, after) => some (c :: b, content, after)
    else
      match findAttr pre rest with
      | none => none
      | some (b, content, after) => some (c :: b, content, after)

/-- A successful head match decomposes the list as pattern plus remainder. -/
theorem headMatch_decomp : ∀ (pat l : List Char),
    headMatch pat l = true → pat ++ l.drop pat.length = l := by
  intro pat
  induction pat with
  | nil => intro l _; simp
  | cons p ps ih =>
    intro l h
    cases l with
    | nil => simp [headMatch] at h
    | cons c cs =>
      simp only [headMatch, Bool.and_eq_true, decide_eq_true_eq] at h
      obtain ⟨h1, h2⟩ := h
      subst h1
      simp only [List.cons_append, List.length_cons, List.drop_succ_cons]
      rw [ih cs h2]

/-- `splitAtQuote` decomposes its input around the first double quote. -/
theorem splitAtQuote_decomp : ∀ (l content after : List Char),
    splitAtQuote l = some (content, after) → l = content ++ '"' :: after := by
  intro l
  induction l with
  | nil => intro content after h; exact Option.noConfusion h
  | cons c rest ih =>
    intro content after h
    by_cases hc : c = '"'
    · rw [splitAtQuote, if_pos hc] at h
      simp only [Option.some.injEq, Prod.mk.injEq] at h
      obtain ⟨h1, h2⟩ := h
      subst h1; subst h2
      simp [hc]
    · rw [splitAtQuote, if_neg hc] at h
      cases hsq : splitAtQuote rest with
      | none => rw [hsq] at h; exact Option.noConfusion h
      | some p =>
        obtain ⟨a, b⟩ := p
        rw [hsq] at h
        simp only [Option.some.injEq, Prod.mk.injEq] at h
        obtain ⟨h1, h2⟩ := h
        subst h1; subst h2
        simp [ih a b hsq]

/-- The result of `replAllAux` does not depend on the fuel once the fuel
covers the input length. -/
theorem replAllAux_fuelInv (pat rep : List Char) :
    ∀ f g l, l.length ≤ g → g ≤ f →
      replAllAux pat rep g l = replAllAux pat rep l.length l := by
  intro f
  induction f with
  | zero =>
    intro g l hl hg
    have hg0 : g = 0 := Nat.le_zero.mp hg
    subst hg0
    have hl0 : l = [] := List.eq_nil_of_length_eq_zero (Nat.le_zero.mp hl)
    subst hl0
    rfl
  | succ f ih =>
    intro g l hl hg
    cases l with
    | nil => cases g <;> rfl
    | cons c rest =>
      cases g with
      | zero => simp at hl
      | succ g' =>
        simp only [List.length_cons] at hl ⊢
        by_cases hm : (!pat.isEmpty && headMatch pat (c :: rest)) = true
        · have hp : 1 ≤ pat.length := by
            cases pat with
            | nil => simp at hm
            | cons _ _ => simp
          have hdl : ((c :: rest).drop pat.length).length ≤ rest.length := by
            simp only [List.length_drop, List.length_cons]
            omega
          simp only [replAllAux, if_pos hm]
          congr 1
          rw [ih g' _ (by omega) (by omega), ih rest.length _ (by omega) (by omega)]
        · simp only [replAllAux, if_neg hm]
          congr 1
          rw [ih g' rest (by omega) (by omega)]

/-- Fuel-generalized: without an occurrence, global replacement is the
identity. -/
theorem replAllAux_findPat_none (pat rep : List Char) :
    ∀ l f, l.length ≤ f → findPat pat l = none → replAllAux pat rep f l = l := by
  intro l
  induction l with
  | nil => intro f _ _; cases f <;> rfl
  | cons c rest ih =>
    intro f hf h
    cases f with
    | zero => simp at hf
    | succ f' =>
      by_cases hm : (!pat.isEmpty && headMatch pat (c :: rest)) = true
      · rw [findPat, if_pos hm] at h
        exact Option.noConfusion h
      · rw [findPat, if_neg hm] at h
        simp only [replAllAux, if_neg hm]
        congr 1
        cases hfr : findPat pat rest with
        | none =>
          exact ih f' (by simp only [List.length_cons] at hf; omega) hfr
        | some p =>
          obtain ⟨b, a⟩ := p
          rw [hfr] at h
          exact Option.noConfusion h

/-- C7's "every occurrence" direction, fuel-generalized: global replacement
rewrites the leftmost occurrence and then continues with the same global
procedure on the remainder. -/
theorem replAllAux_findPat_some (pat rep : List Char) :
    ∀ l f b a, l.length ≤ f → findPat pat l = some (b, a) →
      l = b ++ pat ++ a ∧
        replAllAux pat rep f l = b ++ rep ++ replAll pat rep a := by
  intro l
  induction l with
  | nil => intro f b a _ h; exact Option.noConfusion h
  | cons c rest ih =>
    intro f b a hf h
    cases f with
    | zero => simp at hf
    | succ f' =>
      simp only [List.length_cons] at hf
      by_cases hm : (!pat.isEmpty && headMatch pat (c :: rest)) = true
      · rw [findPat, if_pos hm] at h
        simp only [Option.some.injEq, Prod.mk.injEq] at h
        obtain ⟨hb, ha⟩ := h
        subst hb; subst ha
        have hp : 1 ≤ pat.length := by
          cases pat with
          | nil => simp at hm
          | cons _ _ => simp
        have hhm : headMatch pat (c :: rest) = true := by
          simp only [Bool.and_eq_true] at hm
          exact hm.2
        constructor
        · simpa using (headMatch_decomp pat (c :: rest) hhm).symm
        · have hdl : ((c :: rest).drop pat.length).length ≤ rest.length := by
            simp only [List.length_drop, List.length_cons]
            omega
          simp only [replAllAux, if_pos hm, List.nil_append]
          congr 1
          exact replAllAux_fuelInv pat rep f' f' _ (by omega) (le_refl f')
      · rw [findPat, if_neg hm] at h
        cases hfr : findPat pat rest with
        | none => rw [hfr] at h; exact Option.noConfusion h
        | some p =>
          obtain ⟨b', a'⟩ := p
          rw [hfr] at h
          simp only [Option.some.injEq, Prod.mk.injEq] at h
          obtain ⟨hb, ha⟩ := h
          rw [← hb, ← ha]
          obtain ⟨ih1, ih2⟩ := ih f' b' a' (by omega) hfr
          constructor
          · simp [ih1]
          · simp only [replAllAux, if_neg hm]
            rw [ih2]
            simp

/-- Without a match, the first-match attribute substitution is the
identity. -/
theorem replAttrFirst_findAttr_none (pre rep : List Char) :
    ∀ l, findAttr pre l = none → replAttrFirst pre rep l = l := by
  intro l
  induction l with
  | nil => intro _; rfl
  | cons c rest ih =>
    intro h
    by_cases hm : headMatch pre (c :: rest) = true
    · rw [findAttr, if_pos hm] at h
      cases hsq : splitAtQuote ((c :: rest).drop pre.length) with
      | some p =>
        obtain ⟨content, after⟩ := p
        rw [hsq] at h
        exact Option.noConfusion h
      | none =>
        rw [hsq] at h
        rw [replAttrFirst, if_pos hm, hsq]
        show c :: replAttrFirst pre rep rest = c :: rest
        cases hfr : findAttr pre rest with
        | none => rw [ih hfr]
        | some p =>
          obtain ⟨b, p2⟩ := p
          rw [hfr] at h
          exact Option.noConfusion h
    · rw [findAttr, if_neg hm] at h
      rw [replAttrFirst, if_neg hm]
      show c :: replAttrFirst pre rep rest = c :: rest
      cases hfr : findAttr pre rest with
      | none => rw [ih hfr]
      | some p =>
        obtain ⟨b, p2⟩ := p
        rw [hfr] at h
        exact Option.noConfusion h

/-- C7's "first-match-only" direction: the attribute-value substitution
replaces the leftmost match and copies the remainder verbatim, so any
further matches inside the remainder survive unrewritten. -/
theorem replAttrFirst_findAttr_some (pre rep : List Char) :
    ∀ l b content a, findAttr pre l = some (b, content, a) →
      l = b ++ pre ++ content ++ '"' :: a ∧
        replAttrFirst pre rep l = b ++ rep ++ a := by
  intro l
  induction l with
  | nil => intro b content a h; exact Option.noConfusion h
  | cons c rest ih =>
    intro b content a h
    by_cases hm : headMatch pre (c :: rest) = true
    · rw [findAttr, if_pos hm] at h
      cases hsq : splitAtQuote ((c :: rest).drop pre.length) with
      | some p =>
        obtain ⟨content', after⟩ := p
        rw [hsq] at h
        simp only [Option.some.injEq, Prod.mk.injEq] at h
        obtain ⟨hb, hc2, ha⟩ := h
        rw [← hb, ← hc2, ← ha]
        constructor
        · have hd : (c :: rest).drop pre.length = content' ++ '"' :: after :=
            splitAtQuote_decomp _ content' after hsq
          have hmd := headMatch_decomp pre (c :: rest) hm
          rw [hd] at hmd
          simpa using hmd.symm
        · rw [replAttrFirst, if_pos hm, hsq]
          simp
      | none =>
        rw [hsq] at h
        cases hfr : findAttr pre rest with
        | none => rw [hfr] at h; exact Option.noConfusion h
        | some p =>
          obtain ⟨b', content', a'⟩ := p
          rw [hfr] at h
          simp only [Option.some.injEq, Prod.mk.injEq] at h
          obtain ⟨hb, hc2, ha⟩ := h
          rw [← hb, ← hc2, ← ha]
          obtain ⟨ih1, ih2⟩ := ih b' content' a' hfr
          constructor
          · simp [ih1]
          · rw [replAttrFirst, if_pos hm, hsq]
            show c :: replAttrFirst pre rep rest = (c :: b') ++ rep ++ a'
            rw [ih2]
            simp
    · rw [findAttr, if_neg hm] at h
      cases hfr : findAttr pre rest with
      | none => rw [hfr] at h; exact Option.noConfusion h
      | some p =>
        obtain ⟨b', content', a'⟩ := p
        rw [hfr] at h
        simp only [Option.some.injEq, Prod.mk.injEq] at h
        obtain ⟨hb, hc2, ha⟩ := h
        rw [← hb, ← hc2, ← ha]
        obtain ⟨ih1, ih2⟩ := ih b' content' a' hfr
        constructor
        · simp [ih1]
        · rw [replAttrFirst, if_neg hm]
          show c :: replAttrFirst pre rep rest = (c :: b') ++ rep ++ a'
          rw [ih2]
          simp

/-- The result of `styleAllAux` does not depend on the fuel once the fuel
covers the input length. -/
theorem styleAllAux_fuelInv :
    ∀ f g l, l.length ≤ g → g ≤ f → styleAllAux g l = styleAllAux l.length l := by
  intro f
  induction f with
  | zero =>
    intro g l hl hg
    have hg0 : g = 0 := Nat.le_zero.mp hg
    subst hg0
    have hl0 : l = [] := List.eq_nil_of_length_eq_zero (Nat.le_zero.mp hl)
    subst hl0
    rfl
  | succ f ih =>
    intro g l hl hg
    cases l with
    | nil => cases g <;> rfl
    | cons c rest =>
      cases g with
      | zero => simp at hl
      | succ g' =>
        simp only [List.length_cons] at hl ⊢
        by_cases hm : headMatch (strL "style=\"") (c :: rest) = true
        · cases hsq : splitAtQuote ((c :: rest).drop 7) with
          | none =>
            simp only [styleAllAux, if_pos hm, hsq]
            congr 1
            rw [ih g' rest (by omega) (by omega)]
          | some p =>
            obtain ⟨content, after⟩ := p
            have hlen : after.length + content.length + 7 ≤ rest.length + 1 := by
              have hd := splitAtQuote_decomp _ content after hsq
              have := congrArg List.length hd
              simp only [List.length_drop, List.length_cons, List.length_append] at this
              omega
            simp only [styleAllAux, if_pos hm, hsq]
            congr 1
            rw [ih g' after (by omega) (by omega),
              ih rest.length after (by omega) (by omega)]
        · simp only [styleAllAux, if_neg hm]
          congr 1
          rw [ih g' rest (by omega) (by omega)]

/-- Fuel-generalized: without a `style` attribute match, the inline-style
rewrite is the identity. -/
theorem styleAllAux_findStyle_none :
    ∀ l f, l.length ≤ f → findAttr (strL "style=\"") l = none →
      styleAllAux f l = l := by
  have h7 : (strL "style=\"").length = 7 := rfl
  intro l
  induction l with
  | nil => intro f _ _; cases f <;> rfl
  | cons c rest ih =>
    intro f hf h
    cases f with
    | zero => simp at hf
    | succ f' =>
      simp only [List.length_cons] at hf
      by_cases hm : headMatch (strL "style=\"") (c :: rest) = true
      · rw [findAttr, if_pos hm, h7] at h
        cases hsq : splitAtQuote ((c :: rest).drop 7) with
        | some p =>
          obtain ⟨content, after⟩ := p
          rw [hsq] at h
          exact Option.noConfusion h
        | none =>
          rw [hsq] at h
          simp only [styleAllAux, if_pos hm, hsq]
          congr 1
          cases hfr : findAttr (strL "style=\"") rest with
          | none => exact ih f' (by omega) hfr
          | some p =>
            obtain ⟨b, p2⟩ := p
            rw [hfr] at h
            exact Option.noConfusion h
      · rw [findAttr, if_neg hm] at h
        simp only [styleAllAux, if_neg hm]
        congr 1
        cases hfr : findAttr (strL "style=\"") rest with
        | none => exact ih f' (by omega) hfr
        | some p =>
          obtain ⟨b, p2⟩ := p
          rw [hfr] at h
          exact Option.noConfusion h

/-- C7's "every occurrence" direction for the inline-style rewrite,
fuel-generalized: the leftmost `style` attribute is rewritten and the same
global procedure continues on the remainder. -/
theorem styleAllAux_findStyle_some :
    ∀ l f b content a, l.length ≤ f →
      findAttr (strL "style=\"") l = some (b, content, a) →
      l = b ++ strL "style=\"" ++ content ++ '"' :: a ∧
        styleAllAux f l = b ++ styleRep content ++ styleAll a := by
  have h7 : (strL "style=\"").length = 7 := rfl
  intro l
  induction l with
  | nil => intro f b content a _ h; exact Option.noConfusion h
  | cons c rest ih =>
    intro f b content a hf h
    cases f with
    | zero => simp at hf
    | succ f' =>
      simp only [List.length_cons] at hf
      by_cases hm : headMatch (strL "style=\"") (c :: rest) = true
      · rw [findAttr, if_pos hm, h7] at h
        cases hsq : splitAtQuote ((c :: rest).drop 7) with
        | some p =>
          obtain ⟨content', after⟩ := p
          rw [hsq] at h
          simp only [Option.some.injEq, Prod.mk.injEq] at h
          obtain ⟨hb, hc2, ha⟩ := h
          rw [← hb, ← hc2, ← ha]
          have hd := splitAtQuote_decomp _ content' after hsq
          have hlen : after.length ≤ rest.length := by
            have := congrArg List.length hd
            simp only [List.length_drop, List.length_cons, List.length_append] at this
            omega
          constructor
          · have hmd := headMatch_decomp (strL "style=\"") (c :: rest) hm
            rw [h7, hd] at hmd
            simpa using hmd.symm
          · simp only [styleAllAux, if_pos hm, hsq, List.nil_append]
            congr 1
            exact styleAllAux_fuelInv f' f' after (by omega) (le_refl f')
        | none =>
          rw [hsq] at h
          cases hfr : findAttr (strL "style=\"") rest with
          | none => rw [hfr] at h; exact Option.noConfusion h
          | some p =>
            obtain ⟨b', content', a'⟩ := p
            rw [hfr] at h
            simp only [Option.some.injEq, Prod.mk.injEq] at h
            obtain ⟨hb, hc2, ha⟩ := h
            rw [← hb, ← hc2, ← ha]
            obtain ⟨ih1, ih2⟩ := ih f' b' content' a' (by omega) hfr
            constructor
            · simp [ih1]
            · simp only [styleAllAux, if_pos hm, hsq]
              rw [ih2]
              simp
      · rw [findAttr, if_neg hm] at h
        cases hfr : findAttr (strL "style=\"") rest with
        | none => rw [hfr] at h; exact Option.noConfusion h
        | some p =>
          obtain ⟨b', content', a'⟩ := p
          rw [hfr] at h
          simp only [Option.some.injEq, Prod.mk.injEq] at h
          obtain ⟨hb, hc2, ha⟩ := h
          rw [← hb, ← hc2, ← ha]
          obtain ⟨ih1, ih2⟩ := ih f' b' content' a' (by omega) hfr
          constructor
          · simp [ih1]
          · simp only [styleAllAux, if_neg hm]
            rw [ih2]
            simp

/-- C7 amended, for every input: (i) plain-pattern global replacement —
`class=`, `for=` and the hyphenated `stroke-*=` renames — is the identity
without an occurrence and otherwise rewrites the leftmost occurrence and
continues the same global procedure on the remainder, so every occurrence
is rewritten; (ii) the quoted-value substitutions (`width`, `height`,
`stroke`, `fill`) replace only the leftmost match and copy the remainder
verbatim, so matches beyond the first survive unrewritten; (iii) the inline
`style` rewrite is global in the same recursive sense; (iv) the
`svg_tailwind` and `html_jsx` conversions are exactly these compositions of
the engine's substitution primitives; with concrete demonstrations of each
multiplicity. -/
theorem substitution_multiplicity_amended :
    (∀ pat rep l, findPat pat l = none → replAll pat rep l = l) ∧
    (∀ pat rep l b a, findPat pat l = some (b, a) →
      l = b ++ pat ++ a ∧
        replAll pat rep l = b ++ rep ++ replAll pat rep a) ∧
    (∀ pre rep l, findAttr pre l = none → replAttrFirst pre rep l = l) ∧
    (∀ pre rep l b content a, findAttr pre l = some (b, content, a) →
      l = b ++ pre ++ content ++ '"' :: a ∧
        replAttrFirst pre rep l = b ++ rep ++ a) ∧
    (∀ l, findAttr (strL "style=\"") l = none → styleAll l = l) ∧
    (∀ l b content a, findAttr (strL "style=\"") l = some (b, content, a) →
      l = b ++ strL "style=\"" ++ content ++ '"' :: a ∧
        styleAll l = b ++ styleRep content ++ styleAll a) ∧
    (∀ s, jsTrim s ≠ "" →
      handleConvert "svg_tailwind" s = .ok (svgTailwindConvert (jsTrim s)) ∧
      handleConvert "html_jsx" s = .ok (htmlJsxRewrite (jsTrim s))) ∧
    handleConvert "svg_tailwind" "<svg fill=\"a\"><path fill=\"b\"/></svg>" =
      .ok "export const Icon = (\x7b className = \"w-6 h-6\" \x7d) => (\n  <svg fill=\"none\"><path fill=\"b\"/></svg>\n);" ∧
    handleConvert "svg_tailwind" "<path stroke-linecap=\"round\" stroke-linecap=\"butt\"/>" =
      .ok "export const Icon = (\x7b className = \"w-6 h-6\" \x7d) => (\n  <path strokeLinecap=\"round\" strokeLinecap=\"butt\"/>\n);" ∧
    handleConvert "html_jsx" "<p for=\"x\"></p><p for=\"y\"></p>" =
      .ok "<p htmlFor=\"x\"></p><p htmlFor=\"y\"></p>" := by
  refine ⟨?_, ?_, ?_, ?_, ?_, ?_, ?_, by decide, by decide, by decide⟩
  · intro pat rep l h
    exact replAllAux_findPat_none pat rep l l.length (le_refl _) h
  · intro pat rep l b a h
    obtain ⟨h1, h2⟩ := replAllAux_findPat_some pat rep l l.length b a (le_refl _) h
    exact ⟨h1, h2⟩
  · intro pre rep l h
    exact replAttrFirst_findAttr_none pre rep l h
  · intro pre rep l b content a h
    exact replAttrFirst_findAttr_some pre rep l b content a h
  · intro l h
    exact styleAllAux_findStyle_none l l.length (le_refl _) h
  · intro l b content a h
    exact styleAllAux_findStyle_some l l.length b content a (le_refl _) h
  · intro s hs
    constructor
    · unfold handleConvert convertClean
      rw [if_neg hs, if_neg (by decide), if_neg (by decide), if_pos rfl]
    · unfold handleConvert convertClean
      rw [if_neg hs, if_neg (by decide), if_neg (by decide), if_neg (by decide),
        if_neg (by decide), if_neg (by decide), if_pos (Or.inl rfl),
        if_neg (by decide)]

/-- Witness for C7's amended theorem: the first-match-only conjunct applied
at a concrete input with two `fill` attributes, its match hypothesis
evaluated. -/
theorem substitution_multiplicity_amended_witness :
    findAttr (strL "fill=\"") (strL "<svg fill=\"a\"><path fill=\"b\"/></svg>") =
      some (strL "<svg ", strL "a", strL "><path fill=\"b\"/></svg>") ∧
    (strL "<svg fill=\"a\"><path fill=\"b\"/></svg>" =
      strL "<svg " ++ strL "fill=\"" ++ strL "a" ++ '"' :: strL "><path fill=\"b\"/></svg>" ∧
      replAttrFirst (strL "fill=\"") (strL "fill=\"none\"")
          (strL "<svg fill=\"a\"><path fill=\"b\"/></svg>") =
        strL "<svg " ++ strL "fill=\"none\"" ++ strL "><path fill=\"b\"/></svg>") :=
  ⟨rfl, substitution_multiplicity_amended.2.2.2.1 (strL "fill=\"")
    (strL "fill=\"none\"") (strL "<svg fill=\"a\"><path fill=\"b\"/></svg>")
    (strL "<svg ") (strL "a") (strL "><path fill=\"b\"/></svg>") rfl⟩

/-- C9 as stated fails on the code: the URL extraction tries the
single-quote regex first and only falls back to the double-quote regex when
no single-quoted token exists, so with a double-quoted token before a
single-quoted one the code embeds the later single-quoted URL where the
claim's first-token reading predicts the earlier double-quoted one. -/
theorem curl_quote_precedence_counterexample :
    handleConvert "curl_fetch" "curl \"https://d.test\" \x27https://s.test\x27" =
      .ok "fetch(\x27https://s.test\x27, \x7b\n  method: \x27GET\x27,\n  headers: \x7b\n    \x27Content-Type\x27: \x27application/json\x27\n  \x7d\n\x7d).then(res => res.json());" ∧
    handleConvert "curl_fetch" "curl \"https://d.test\" \x27https://s.test\x27" ≠
      .ok "fetch(\x27https://d.test\x27, \x7b\n  method: \x27GET\x27,\n  headers: \x7b\n    \x27Content-Type\x27: \x27application/json\x27\n  \x7d\n\x7d).then(res => res.json());" :=
  ⟨by decide, by decide⟩

/-- C9 amended: the URL is the first single-quoted token when one exists,
else the first double-quoted token, else the fixed placeholder
`https://api.example.com`; the output is the fixed GET fetch template with a
`Content-Type: application/json` header, ignoring `-H`/`-X` flags; the
claim's example embeds `https://x.test/y`. -/
theorem curl_fetch_amended (s : String) (h : jsTrim s ≠ "") :
    handleConvert "curl_fetch" s = .ok (curlFetchConvert (jsTrim s)) ∧
    handleConvert "curl_fetch" "curl \x27https://x.test/y\x27" =
      .ok "fetch(\x27https://x.test/y\x27, \x7b\n  method: \x27GET\x27,\n  headers: \x7b\n    \x27Content-Type\x27: \x27application/json\x27\n  \x7d\n\x7d).then(res => res.json());" ∧
    handleConvert "curl_fetch" "curl -X POST -H Accept: text/xml https://no.quotes" =
      .ok "fetch(\x27https://api.example.com\x27, \x7b\n  method: \x27GET\x27,\n  headers: \x7b\n    \x27Content-Type\x27: \x27application/json\x27\n  \x7d\n\x7d).then(res => res.json());" := by
  refine ⟨?_, by decide, by decide⟩
  unfold handleConvert convertClean
  rw [if_neg h, if_neg (by decide), if_neg (by decide), if_neg (by decide), if_pos rfl]

/-- Witness for C9's amended theorem at the claim's example input. -/
theorem curl_fetch_amended_witness :
    jsTrim "curl \x27https://x.test/y\x27" ≠ "" ∧
    handleConvert "curl_fetch" "curl \x27https://x.test/y\x27" =
      .ok (curlFetchConvert (jsTrim "curl \x27https://x.test/y\x27")) :=
  ⟨by decide, (curl_fetch_amended "curl \x27https://x.test/y\x27" (by decide)).1⟩

end DevConverter
